import Mathlib

/-!
Shallow embedding of the polyhedral schedule-tree matcher and iterator-name
generator of the TensorComprehensions core
(src/core/polyhedral/schedule_tree_matcher.cc fragment and
src/core/polyhedral/codegen.cc), together with proofs about the matcher
operations `reductionUpdates` and `isSingleReductionWithin` and the codegen
operation `Codegen::makeLoopIterators`.

Modelling conventions:
* Halide IR nodes (`Expr`, `Stmt`) carry an explicit `nodeId : Nat` standing
  for the allocation identity of the underlying `IRNode`; `same_as` compares
  these ids, exactly as the C++ `same_as` compares node pointers.
* isl values are modelled extensionally and finitely: an `isl::union_set` is a
  finite list of statement instances (tuple id plus integer coordinates), an
  `isl::union_map` a finite list of instance pairs, and a
  `multi_union_pw_aff` the finite graph of the piecewise function.  The isl
  operations used by the source (`intersect_domain`, `apply_domain`,
  `is_single_valued`, `unite`, `foreach_set`) are given their standard
  set-theoretic meaning on these lists; `foreach_set`'s per-set callback in
  `reductionUpdates` becomes a per-instance filter, which yields the same set
  because the classification depends only on the tuple id.
* C++ operations with undefined behaviour (dereferencing the result of a
  failed IR cast, indexing an empty vector) are modelled by `Option`/`Except`
  with a distinguished error value, and the fatal `TC_CHECK_EQ` abort by an
  error value carrying the offending identifier, as its diagnostic does.
-/

namespace TC

/-- Fragment of the Halide expression IR used by the matcher: `Call` and `Add`
nodes are inspected by `isSupportedReduction`; `Mul`, `Min`, `Max` and
`Variable` stand for the other expression constructors, which the matcher
treats uniformly (any non-`Add` first call argument). Each node records its
allocation identity `nodeId`. -/
inductive Expr where
  | add (nodeId : Nat) (a b : Expr)
  | mul (nodeId : Nat) (a b : Expr)
  | minE (nodeId : Nat) (a b : Expr)
  | maxE (nodeId : Nat) (a b : Expr)
  | call (nodeId : Nat) (fn : String) (args : List Expr)
  | varE (nodeId : Nat) (vn : String)

/-- Fragment of the Halide statement IR: `provide` is `Halide::Internal::Provide`
(the only statement kind the matcher casts to); `evaluate` stands for every
other statement kind, for which `stmt.as<Provide>()` yields a null handle. -/
inductive Stmt where
  | provide (nodeId : Nat) (fn : String) (values : List Expr) (args : List Expr)
  | evaluate (nodeId : Nat)

/-- Allocation identity of an expression node. -/
def Expr.nodeId : Expr → Nat
  | .add i _ _ => i
  | .mul i _ _ => i
  | .minE i _ _ => i
  | .maxE i _ _ => i
  | .call i _ _ => i
  | .varE i _ => i

/-- Allocation identity of a statement node. -/
def Stmt.nodeId : Stmt → Nat
  | .provide i _ _ _ => i
  | .evaluate i => i

/-- Halide `same_as`: identity of the underlying IR node (pointer equality in
the C++, equality of allocation ids here). -/
def Stmt.sameAs (a b : Stmt) : Bool :=
  a.nodeId == b.nodeId

/-- Successful `as<Add>` cast test on an expression. -/
def Expr.isAdd : Expr → Bool
  | .add _ _ _ => true
  | _ => false

mutual

/-- Structural equality of expression trees, ignoring allocation identity
(what Halide calls deep equality, as opposed to `same_as`). -/
def Expr.structEq : Expr → Expr → Bool
  | .add _ a b, .add _ c d => Expr.structEq a c && Expr.structEq b d
  | .mul _ a b, .mul _ c d => Expr.structEq a c && Expr.structEq b d
  | .minE _ a b, .minE _ c d => Expr.structEq a c && Expr.structEq b d
  | .maxE _ a b, .maxE _ c d => Expr.structEq a c && Expr.structEq b d
  | .call _ f as, .call _ g bs => f == g && Expr.structEqList as bs
  | .varE _ v, .varE _ w => v == w
  | _, _ => false

/-- Structural equality of expression lists, ignoring allocation identity. -/
def Expr.structEqList : List Expr → List Expr → Bool
  | [], [] => true
  | a :: as, b :: bs => Expr.structEq a b && Expr.structEqList as bs
  | _, _ => false

end

/-- Structural equality of statements, ignoring allocation identity. -/
def Stmt.structEq : Stmt → Stmt → Bool
  | .provide _ f vs as, .provide _ g ws bs =>
      f == g && Expr.structEqList vs ws && Expr.structEqList as bs
  | .evaluate _, .evaluate _ => true
  | _, _ => false

/-- An `isl::id`: isl interns identifiers per context by name, so an id value
is determined by its context and its name string. -/
structure IslId where
  ctx : Nat
  name : String
  deriving DecidableEq

/-- A statement instance: tuple id plus integer coordinates.  An
`isl::union_set` is modelled as a finite list of these, an `isl::union_map`
as a finite list of pairs. -/
abbrev Point := IslId × List Int

abbrev UnionSet := List Point

abbrev UnionMap := List (Point × Point)

/-- Entry of `scop.halide.reductions`: the update statement of a recognized
reduction together with its reduction dimensions. -/
structure Reduction where
  update : Stmt
  dims : List Nat

/-- The `scop.halide` component consulted by the matcher: the statement
registry (`statements`, an id-keyed map) and the reduction catalog
(`reductions`). -/
structure HalideComponents where
  statements : List (IslId × Stmt)
  reductions : List Reduction

/-- The `scop.body` component: the body-level reduction relation, mapping each
reduction-contributing statement instance to its reduction target. -/
structure ScopBody where
  reductions : UnionMap

/-- The fragment of `Scop` consulted by the two matcher operations. -/
structure Scop where
  halide : HalideComponents
  body : ScopBody

/-- Registry lookup (`scop.halide.statements.count(id)` / `.at(id)`). -/
def lookupStmt (statements : List (IslId × Stmt)) (id : IslId) : Option Stmt :=
  match statements with
  | [] => none
  | (k, s) :: rest => if k = id then some s else lookupStmt rest id

/-- `isSupportedReduction` from schedule_tree_matcher.cc:

    auto provide = stmt.as<Halide::Internal::Provide>();
    auto call = provide->values[0].as<Halide::Internal::Call>();
    if (call && call->args[0].as<Halide::Internal::Add>()) { return true; }
    return false;

`none` marks the executions that are undefined behaviour in the C++: `stmt`
is not a `Provide` (null `provide` dereferenced), `provide->values` is empty
(`values[0]` out of bounds), or the first value is a `Call` with no arguments
(`args[0]` out of bounds after the non-null test on `call`). -/
def isSupportedReduction (stmt : Stmt) : Option Bool :=
  match stmt with
  | .provide _ _ values _ =>
    match values with
    | [] => none
    | v :: _ =>
      match v with
      | .call _ _ [] => none
      | .call _ _ (a :: _) => some a.isAdd
      | _ => some false
  | .evaluate _ => none

/-- Failure outcomes of the matcher: the fatal `TC_CHECK_EQ` abort, whose
diagnostic names the offending identifier, and the undefined accesses inside
`isSupportedReduction`. -/
inductive MatchErr where
  | missingId (id : IslId)
  | undefinedAccess
  deriving DecidableEq

/-- `isReductionUpdateId` from schedule_tree_matcher.cc: check the id is a
registered statement (fatal otherwise), test `isSupportedReduction`, then scan
the reduction catalog for an entry whose update statement is `same_as` the
registered statement, returning its reduction dims on a match.  The returned
list is the final content of the by-reference `reductionDims` argument, which
starts out empty and is only assigned on a catalog match. -/
def isReductionUpdateId (id : IslId) (scop : Scop) :
    Except MatchErr (Bool × List Nat) :=
  match lookupStmt scop.halide.statements id with
  | none => .error (.missingId id)
  | some provideNode =>
    match isSupportedReduction provideNode with
    | none => .error .undefinedAccess
    | some false => .ok (false, [])
    | some true =>
      match scop.halide.reductions.find? (fun iup => iup.update.sameAs provideNode) with
      | some iup => .ok (true, iup.dims)
      | none => .ok (false, [])

/-- `reductionUpdates` from schedule_tree_matcher.cc: start from the empty
union set and unite every component of `domain` whose tuple id passes
`isReductionUpdateId`.  The `foreach_set` traversal is modelled per statement
instance; a fatal condition inside the traversal aborts the whole
computation, as `TC_CHECK` does. -/
def reductionUpdates (domain : UnionSet) (scop : Scop) : Except MatchErr UnionSet :=
  match domain with
  | [] => .ok []
  | p :: rest =>
    match isReductionUpdateId p.1 scop with
    | .error e => .error e
    | .ok (b, _) =>
      match reductionUpdates rest scop with
      | .error e => .error e
      | .ok update => .ok (if b then p :: update else update)

/-- isl `union_map::intersect_domain`. -/
def intersectDomain (m : UnionMap) (d : UnionSet) : UnionMap :=
  m.filter (fun pr => decide (pr.1 ∈ d))

/-- The graph of a `multi_union_pw_aff` (a piecewise affine function from
statement instances to iteration-coordinate tuples), which is what
`isl::union_map::from` turns the schedule prefix into. -/
abbrev Mupa := List (Point × List Int)

/-- isl `union_map::apply_domain`: transform the domain side of `m` through
the function graph `pm`. -/
def applyDomain (m : UnionMap) (pm : Mupa) : List (List Int × Point) :=
  m.flatMap (fun ab => pm.filterMap (fun xy =>
    if xy.1 = ab.1 then some (xy.2, ab.2) else none))

/-- isl `union_map::is_single_valued` on the composed relation. -/
def isSingleValued (m : List (List Int × Point)) : Bool :=
  m.all (fun p => m.all (fun q => decide (p.1 = q.1 → p.2 = q.2)))

/-- `isSingleReductionWithin` from schedule_tree_matcher.cc:

    auto reductions = scop.body.reductions;
    reductions = reductions.intersect_domain(domain);
    auto prefixMap = isl::union_map::from(prefix);
    auto prefixToReduction = reductions.apply_domain(prefixMap);
    return prefixToReduction.is_single_valued();
-/
def isSingleReductionWithin (domain : UnionSet) (pref : Mupa) (scop : Scop) : Bool :=
  let reductions := intersectDomain scop.body.reductions domain
  let pm := pref
  let prefToReduction := applyDomain reductions pm
  isSingleValued prefToReduction

/-- `Codegen::makeLoopIterators` from codegen.cc: a `for (int i = 0; i < n; ++i)`
loop appending ids named by streaming the prefix and then the decimal digits
of `i` into the context.  For `n <= 0` the loop body never runs and the list
is empty; `Int.toNat` renders that guard. -/
def makeLoopIterators (ctx : Nat) (n : Int) (pref : String) : List IslId :=
  (List.range n.toNat).map (fun i => ⟨ctx, pref ++ Nat.repr i⟩)

/-! Concrete sample data used by the witness theorems. -/

/-- Sample variable expression. -/
def xVar : Expr := .varE 101 "x"

/-- Sample variable expression. -/
def yVar : Expr := .varE 102 "y"

/-- Sample statement `S(...) = S(...) + y`: a Provide whose single value is a
call whose first argument is an addition — the supported reduction shape. -/
def stmtAdd : Stmt := .provide 1 "S" [.call 103 "S" [.add 100 xVar yVar]] []

/-- A structural copy of `stmtAdd` built from fresh nodes: structurally equal
to `stmtAdd` but with distinct allocation identities throughout. -/
def stmtAddCopy : Stmt :=
  .provide 3 "S" [.call 104 "S" [.add 105 (.varE 106 "x") (.varE 107 "y")]] []

/-- Sample statement `T(...) = T(...) * y`: same shape but the outermost
combiner is a multiplication, which the matcher does not support. -/
def stmtMul : Stmt := .provide 2 "T" [.call 203 "T" [.mul 200 xVar yVar]] []

/-- Sample statement that is not a Provide node at all. -/
def stmtBad : Stmt := .evaluate 9

/-- Statement identifier of `stmtAdd` in the sample scops. -/
def idA : IslId := ⟨0, "A"⟩

/-- Statement identifier of `stmtMul` in the sample scops. -/
def idM : IslId := ⟨0, "M"⟩

/-- Statement identifier of `stmtBad` in the sample scop `scopBad`. -/
def idB : IslId := ⟨0, "B"⟩

/-- Sample scop: registry holds `stmtAdd` and `stmtMul`, the catalog holds
both (with reduction dims `[1]`), and the body reduction relation sends both
instances of `idA` to the same reduction target. -/
def scopA : Scop :=
  ⟨⟨[(idA, stmtAdd), (idM, stmtMul)], [⟨stmtAdd, [1]⟩, ⟨stmtMul, [1]⟩]⟩,
   ⟨[((idA, [0, 0]), (idA, [0])), ((idA, [0, 1]), (idA, [0]))]⟩⟩

/-- Sample scop whose catalog holds only the structural copy `stmtAddCopy`,
while the registry maps `idA` to the original `stmtAdd`. -/
def scopCopy : Scop := ⟨⟨[(idA, stmtAdd)], [⟨stmtAddCopy, [1]⟩]⟩, ⟨[]⟩⟩

/-- Sample scop whose registry and catalog hold only the multiplication
statement `stmtMul`. -/
def scopMul : Scop := ⟨⟨[(idM, stmtMul)], [⟨stmtMul, [1]⟩]⟩, ⟨[]⟩⟩

/-- Sample scop whose registry maps `idB` to a non-Provide statement. -/
def scopBad : Scop := ⟨⟨[(idB, stmtBad)], []⟩, ⟨[]⟩⟩

/-! Decimal read-back, used to invert `Nat.repr` and prove the generated
iterator names pairwise distinct. -/

/-- Numeric value of a decimal digit character. -/
def charVal (c : Char) : Nat := c.toNat - 48

/-- Read a decimal digit string back into a number, most significant digit
first, starting from accumulator `acc`. -/
def readNat (acc : Nat) : List Char → Nat
  | [] => acc
  | c :: cs => readNat (acc * 10 + charVal c) cs

/-! Injectivity of the decimal rendering used in iterator names. -/

lemma readNat_cons (acc : Nat) (c : Char) (cs : List Char) :
    readNat acc (c :: cs) = readNat (acc * 10 + charVal c) cs := rfl

lemma readNat_append (acc : Nat) (xs ys : List Char) :
    readNat acc (xs ++ ys) = readNat (readNat acc xs) ys := by
  induction xs generalizing acc with
  | nil => rfl
  | cons c cs ih =>
    rw [List.cons_append, readNat_cons, readNat_cons]
    exact ih (acc * 10 + charVal c)

lemma charVal_digitChar {d : Nat} (h : d < 10) :
    charVal (Nat.digitChar d) = d := by
  interval_cases d <;> decide

lemma toDigitsCore_succ (b fuel n : Nat) (ds : List Char) :
    Nat.toDigitsCore b (fuel + 1) n ds =
      if n / b = 0 then Nat.digitChar (n % b) :: ds
      else Nat.toDigitsCore b fuel (n / b) (Nat.digitChar (n % b) :: ds) := rfl

lemma toDigitsCore_acc (fuel : Nat) : ∀ (n : Nat) (ds : List Char),
    Nat.toDigitsCore 10 fuel n ds = Nat.toDigitsCore 10 fuel n [] ++ ds := by
  induction fuel with
  | zero => intro n ds; rfl
  | succ f ih =>
    intro n ds
    rw [toDigitsCore_succ, toDigitsCore_succ]
    by_cases h : n / 10 = 0
    · simp [h]
    · simp only [h, if_false]
      rw [ih (n / 10) (Nat.digitChar (n % 10) :: ds),
        ih (n / 10) [Nat.digitChar (n % 10)]]
      simp

lemma readNat_nil (acc : Nat) : readNat acc [] = acc := rfl

lemma readNat_toDigitsCore (f : Nat) : ∀ n : Nat, n < 10 ^ (f + 1) →
    readNat 0 (Nat.toDigitsCore 10 (f + 1) n []) = n := by
  induction f with
  | zero =>
    intro n hn
    have hn' : n < 10 := by simpa using hn
    have hm : n % 10 < 10 := Nat.mod_lt _ (by norm_num)
    have h10 : n / 10 = 0 := by omega
    rw [toDigitsCore_succ, if_pos h10, readNat_cons, readNat_nil, charVal_digitChar hm]
    omega
  | succ f ih =>
    intro n hn
    have hm : n % 10 < 10 := Nat.mod_lt _ (by norm_num)
    by_cases h10 : n / 10 = 0
    · rw [toDigitsCore_succ, if_pos h10, readNat_cons, readNat_nil, charVal_digitChar hm]
      omega
    · have hdivlt : n / 10 < 10 ^ (f + 1) := by
        rw [Nat.div_lt_iff_lt_mul (by norm_num)]
        calc n < 10 ^ (f + 1 + 1) := hn
        _ = 10 ^ (f + 1) * 10 := by ring
      rw [toDigitsCore_succ, if_neg h10, toDigitsCore_acc, readNat_append,
        ih (n / 10) hdivlt, readNat_cons, readNat_nil, charVal_digitChar hm]
      omega

lemma reprRead (n : Nat) : readNat 0 (Nat.repr n).data = n := by
  have hfuel : n < 10 ^ (n + 1) := by
    calc n < 10 ^ n := Nat.lt_pow_self (by norm_num) n
    _ ≤ 10 ^ (n + 1) := Nat.pow_le_pow_right (by norm_num) (Nat.le_succ n)
  have h := readNat_toDigitsCore n n hfuel
  have hdata : (Nat.repr n).data = Nat.toDigitsCore 10 (n + 1) n [] := rfl
  rw [hdata]
  exact h

lemma natRepr_injective : Function.Injective Nat.repr := by
  intro a b hab
  have h : readNat 0 (Nat.repr a).data = readNat 0 (Nat.repr b).data := by rw [hab]
  rwa [reprRead, reprRead] at h

lemma append_repr_injective (p : String) {i j : Nat}
    (h : p ++ Nat.repr i = p ++ Nat.repr j) : i = j := by
  apply natRepr_injective
  have hd : (p ++ Nat.repr i).data = (p ++ Nat.repr j).data := by rw [h]
  simp only [String.data_append] at hd
  exact String.ext (List.append_cancel_left hd)

/-! Helper lemmas about the matcher operations. -/

lemma reductionUpdates_cons (p : Point) (rest : UnionSet) (S : Scop) :
    reductionUpdates (p :: rest) S =
      match isReductionUpdateId p.1 S with
      | .error e => .error e
      | .ok (b, _) =>
        match reductionUpdates rest S with
        | .error e => .error e
        | .ok update => .ok (if b then p :: update else update) := rfl

lemma isReductionUpdateId_missing {id : IslId} {S : Scop}
    (hlk : lookupStmt S.halide.statements id = none) :
    isReductionUpdateId id S = .error (.missingId id) := by
  simp [isReductionUpdateId, hlk]

lemma isReductionUpdateId_ok_of {id : IslId} {S : Scop} {st : Stmt}
    (hlk : lookupStmt S.halide.statements id = some st)
    (hsh : (isSupportedReduction st).isSome) :
    ∃ r, isReductionUpdateId id S = .ok r := by
  cases hb : isSupportedReduction st with
  | none => rw [hb] at hsh; simp at hsh
  | some b =>
    cases b with
    | false => exact ⟨(false, []), by simp [isReductionUpdateId, hlk, hb]⟩
    | true =>
      cases hf : S.halide.reductions.find? (fun iup => iup.update.sameAs st) with
      | none => exact ⟨(false, []), by simp [isReductionUpdateId, hlk, hb, hf]⟩
      | some iup => exact ⟨(true, iup.dims), by simp [isReductionUpdateId, hlk, hb, hf]⟩

lemma reductionUpdates_ok_mem {q : Point} :
    ∀ {D : UnionSet} {S : Scop} {u : UnionSet},
    reductionUpdates D S = .ok u →
    (q ∈ u ↔ q ∈ D ∧ ∃ dims, isReductionUpdateId q.1 S = .ok (true, dims)) := by
  intro D
  induction D with
  | nil =>
    intro S u h
    simp only [reductionUpdates] at h
    injection h with h
    subst h
    simp
  | cons p rest ih =>
    intro S u h
    rw [reductionUpdates_cons] at h
    cases hcl : isReductionUpdateId p.1 S with
    | error e => rw [hcl] at h; exact absurd h (by simp)
    | ok bd =>
      obtain ⟨b, dims0⟩ := bd
      rw [hcl] at h
      cases hrest : reductionUpdates rest S with
      | error e => rw [hrest] at h; exact absurd h (by simp)
      | ok u' =>
        rw [hrest] at h
        simp only [Except.ok.injEq] at h
        subst h
        cases b with
        | true =>
          constructor
          · intro hq
            rcases List.mem_cons.mp (by simpa using hq) with hq | hq
            · subst hq
              exact ⟨List.mem_cons_self _ _, dims0, hcl⟩
            · obtain ⟨hmem, hcls⟩ := (ih hrest).mp hq
              exact ⟨List.mem_cons_of_mem _ hmem, hcls⟩
          · rintro ⟨hq, hcls⟩
            rcases List.mem_cons.mp hq with hq | hq
            · subst hq
              simp
            · simpa using List.mem_cons_of_mem p ((ih hrest).mpr ⟨hq, hcls⟩)
        | false =>
          simp only [if_neg (by simp : ¬ (false = true))] at *
          rw [ih hrest]
          constructor
          · rintro ⟨hq, hcls⟩
            exact ⟨List.mem_cons_of_mem _ hq, hcls⟩
          · rintro ⟨hq, dims, hcls⟩
            rcases List.mem_cons.mp hq with hq | hq
            · subst hq
              rw [hcl] at hcls
              simp at hcls
            · exact ⟨hq, dims, hcls⟩

lemma reductionUpdates_append {S : Scop} :
    ∀ {D1 D2 : UnionSet} {u1 u2 : UnionSet},
    reductionUpdates D1 S = .ok u1 → reductionUpdates D2 S = .ok u2 →
    reductionUpdates (D1 ++ D2) S = .ok (u1 ++ u2) := by
  intro D1
  induction D1 with
  | nil =>
    intro D2 u1 u2 h1 h2
    simp only [reductionUpdates] at h1
    injection h1 with h1
    subst h1
    simpa using h2
  | cons p rest ih =>
    intro D2 u1 u2 h1 h2
    rw [reductionUpdates_cons] at h1
    rw [List.cons_append, reductionUpdates_cons]
    cases hcl : isReductionUpdateId p.1 S with
    | error e => rw [hcl] at h1; exact absurd h1 (by simp)
    | ok bd =>
      obtain ⟨b, dims0⟩ := bd
      rw [hcl] at h1
      cases hrest : reductionUpdates rest S with
      | error e => rw [hrest] at h1; exact absurd h1 (by simp)
      | ok u' =>
        rw [hrest] at h1
        simp only [Except.ok.injEq] at h1
        subst h1
        rw [ih hrest h2]
        cases b with
        | true => simp
        | false => simp

lemma reductionUpdates_total {S : Scop} :
    ∀ {D : UnionSet}, (∀ q ∈ D, ∃ r, isReductionUpdateId q.1 S = .ok r) →
    ∃ u, reductionUpdates D S = .ok u := by
  intro D
  induction D with
  | nil => intro _; exact ⟨[], rfl⟩
  | cons p rest ih =>
    intro h
    obtain ⟨⟨b, dims0⟩, hcl⟩ := h p (List.mem_cons_self _ _)
    obtain ⟨u', hrest⟩ := ih (fun q hq => h q (List.mem_cons_of_mem _ hq))
    refine ⟨if b then p :: u' else u', ?_⟩
    rw [reductionUpdates_cons, hcl, hrest]

lemma mem_intersectDomain {m : UnionMap} {d : UnionSet} {pr : Point × Point} :
    pr ∈ intersectDomain m d ↔ pr ∈ m ∧ pr.1 ∈ d := by
  simp [intersectDomain]

lemma mem_applyDomain {m : UnionMap} {pm : Mupa} {c : List Int} {t : Point} :
    (c, t) ∈ applyDomain m pm ↔ ∃ p : Point, (p, t) ∈ m ∧ (p, c) ∈ pm := by
  constructor
  · intro h
    obtain ⟨⟨a, b⟩, hab, hmem⟩ := List.mem_flatMap.mp h
    obtain ⟨⟨x, y⟩, hxy, heq⟩ := List.mem_filterMap.mp hmem
    dsimp only at heq
    by_cases hx : x = a
    · rw [if_pos hx] at heq
      injection heq with heq
      rw [Prod.mk.injEq] at heq
      obtain ⟨hyc, hbt⟩ := heq
      subst hx
      subst hyc
      subst hbt
      exact ⟨x, hab, hxy⟩
    · rw [if_neg hx] at heq
      exact absurd heq (by simp)
  · rintro ⟨p, hm, hpm⟩
    apply List.mem_flatMap.mpr
    refine ⟨(p, t), hm, ?_⟩
    apply List.mem_filterMap.mpr
    refine ⟨(p, c), hpm, ?_⟩
    simp

lemma isSingleValued_iff {l : List (List Int × Point)} :
    isSingleValued l = true ↔
      ∀ a b a2 b2, (a, b) ∈ l → (a2, b2) ∈ l → a = a2 → b = b2 := by
  simp only [isSingleValued, List.all_eq_true, decide_eq_true_eq]
  constructor
  · intro h a b a2 b2 h1 h2 ha
    exact h (a, b) h1 (a2, b2) h2 ha
  · intro h p hp q hq hpq
    exact h p.1 p.2 q.1 q.2 hp hq hpq

lemma reductionUpdates_missing {S : Scop} :
    ∀ {D : UnionSet},
    (∀ q ∈ D, ∀ st, lookupStmt S.halide.statements q.1 = some st →
      (isSupportedReduction st).isSome) →
    (∃ q ∈ D, lookupStmt S.halide.statements q.1 = none) →
    ∃ idm, reductionUpdates D S = .error (.missingId idm) ∧
      lookupStmt S.halide.statements idm = none := by
  intro D
  induction D with
  | nil =>
    rintro _ ⟨q, hq, _⟩
    exact absurd hq (List.not_mem_nil q)
  | cons p rest ih =>
    rintro hshape ⟨q, hq, hqnone⟩
    cases hl : lookupStmt S.halide.statements p.1 with
    | none =>
      refine ⟨p.1, ?_, hl⟩
      rw [reductionUpdates_cons, isReductionUpdateId_missing hl]
    | some st =>
      have hq' : q ∈ rest := by
        rcases List.mem_cons.mp hq with hq | hq
        · subst hq
          rw [hl] at hqnone
          exact absurd hqnone (by simp)
        · exact hq
      obtain ⟨idm, hrest, hidm⟩ :=
        ih (fun r hr => hshape r (List.mem_cons_of_mem _ hr)) ⟨q, hq', hqnone⟩
      obtain ⟨⟨b, d0⟩, hcl⟩ :=
        isReductionUpdateId_ok_of hl (hshape p (List.mem_cons_self _ _) st hl)
      refine ⟨idm, ?_, hidm⟩
      rw [reductionUpdates_cons, hcl, hrest]

/-! Helper lemmas about the iterator-name generator. -/

lemma makeLoopIterators_length (ctx : Nat) (n : Int) (pref : String) :
    (makeLoopIterators ctx n pref).length = n.toNat := by
  simp [makeLoopIterators]

lemma makeLoopIterators_get (ctx : Nat) (n : Int) (pref : String) (i : Nat)
    (hi : i < (makeLoopIterators ctx n pref).length) :
    (makeLoopIterators ctx n pref).get ⟨i, hi⟩ = ⟨ctx, pref ++ Nat.repr i⟩ := by
  rw [List.get_eq_getElem]
  simp [makeLoopIterators]

lemma makeLoopIterators_nodup (ctx : Nat) (n : Int) (pref : String) :
    (makeLoopIterators ctx n pref).Nodup := by
  refine List.Nodup.map ?_ (List.nodup_range _)
  intro i j hij
  have hname : pref ++ Nat.repr i = pref ++ Nat.repr j := congrArg IslId.name hij
  exact append_repr_injective pref hname

/-! Claim theorems. -/

/-- C1: `isSingleReductionWithin(domain, prefix, scop)` returns true iff the
relation obtained by restricting the scop's body reduction relation to the
given domain and then transforming its domain side by the schedule prefix is
single-valued: whenever two reduction pairs survive the domain restriction
and their instances are sent by the prefix to the same outer-iteration
coordinate, their reduction targets agree. -/
theorem isSingleReductionWithin_iff (domain : UnionSet) (pref : Mupa) (scop : Scop) :
    isSingleReductionWithin domain pref scop = true ↔
      ∀ (p₁ p₂ t₁ t₂ : Point) (c : List Int),
        (p₁, t₁) ∈ scop.body.reductions → p₁ ∈ domain → (p₁, c) ∈ pref →
        (p₂, t₂) ∈ scop.body.reductions → p₂ ∈ domain → (p₂, c) ∈ pref →
        t₁ = t₂ := by
  simp only [isSingleReductionWithin]
  constructor
  · intro h p₁ p₂ t₁ t₂ c h1 hd1 hp1 h2 hd2 hp2
    refine isSingleValued_iff.mp h c t₁ c t₂ ?_ ?_ rfl
    · exact mem_applyDomain.mpr ⟨p₁, mem_intersectDomain.mpr ⟨h1, hd1⟩, hp1⟩
    · exact mem_applyDomain.mpr ⟨p₂, mem_intersectDomain.mpr ⟨h2, hd2⟩, hp2⟩
  · intro h
    apply isSingleValued_iff.mpr
    intro a b a2 b2 h1 h2 ha
    obtain ⟨p, hm, hpm⟩ := mem_applyDomain.mp h1
    obtain ⟨p2, hm2, hpm2⟩ := mem_applyDomain.mp h2
    obtain ⟨hm, hd⟩ := mem_intersectDomain.mp hm
    obtain ⟨hm2, hd2⟩ := mem_intersectDomain.mp hm2
    subst ha
    exact h p p2 b b2 a hm hd hpm hm2 hd2 hpm2

/-- C1 witness: on the sample scop, restricting to the two instances of `idA`
and fixing the outer coordinate, both reduction pairs map to the same target,
as certified by applying the theorem at this concrete input. -/
theorem isSingleReductionWithin_iff_witness :
    ((idA, [0]) : Point) = ((idA, [0]) : Point) :=
  (isSingleReductionWithin_iff [(idA, [0, 0]), (idA, [0, 1])]
      [((idA, [0, 0]), [0]), ((idA, [0, 1]), [0])] scopA).mp (by decide)
    (idA, [0, 0]) (idA, [0, 1]) (idA, [0]) (idA, [0]) [0]
    (by decide) (by decide) (by decide) (by decide) (by decide) (by decide)

/-- C2: whenever `reductionUpdates` returns a result — in particular under
the claim's precondition that every statement identifier occurring in the
domain is registered — that result is a subset of the input domain, and the
empty domain yields the empty domain for every scop. -/
theorem reductionUpdates_subset (D : UnionSet) (S : Scop) (u : UnionSet)
    (h : reductionUpdates D S = .ok u) :
    (∀ q, q ∈ u → q ∈ D) ∧ reductionUpdates ([] : UnionSet) S = .ok [] :=
  ⟨fun _ hq => ((reductionUpdates_ok_mem h).mp hq).1, rfl⟩

/-- C2 witness: the single classified instance of the sample run lies in the
input domain, and the empty domain maps to the empty result. -/
theorem reductionUpdates_subset_witness :
    (((idA, [0]) : Point) ∈ ([(idA, [0]), (idM, [1])] : UnionSet)) ∧
      reductionUpdates ([] : UnionSet) scopA = .ok [] := by
  have h := reductionUpdates_subset [(idA, [0]), (idM, [1])] scopA [(idA, [0])] (by rfl)
  exact ⟨h.1 (idA, [0]) (by simp), h.2⟩

/-- C3: a registered statement whose first value is a call whose first
argument is not an addition (multiplication, min, max, ...) is never included
in `reductionUpdates`, even when the reduction catalog holds an entry for
that very statement node; moreover every instance of the result comes from a
statement whose supported-reduction test succeeded. -/
theorem reductionUpdates_nonAdd (D : UnionSet) (S : Scop) (u : UnionSet) (q : Point)
    (sid cid : Nat) (snm cnm : String) (comb : Expr) (cargs vs rest : List Expr)
    (hrun : reductionUpdates D S = .ok u)
    (hlk : lookupStmt S.halide.statements q.1 =
      some (.provide sid snm (.call cid cnm (comb :: cargs) :: vs) rest))
    (hcomb : comb.isAdd = false)
    (hcat : ∃ r ∈ S.halide.reductions,
      Stmt.sameAs r.update (.provide sid snm (.call cid cnm (comb :: cargs) :: vs) rest)
        = true) :
    q ∉ u ∧ ∀ p ∈ u, ∃ st, lookupStmt S.halide.statements p.1 = some st ∧
      isSupportedReduction st = some true := by
  have hsup : isSupportedReduction
      (.provide sid snm (.call cid cnm (comb :: cargs) :: vs) rest) = some false := by
    simp [isSupportedReduction, hcomb]
  constructor
  · intro hq
    obtain ⟨_, dims, hcls⟩ := (reductionUpdates_ok_mem hrun).mp hq
    have hfalse : isReductionUpdateId q.1 S = .ok (false, []) := by
      simp [isReductionUpdateId, hlk, hsup]
    rw [hfalse] at hcls
    simp at hcls
  · intro p hp
    obtain ⟨_, dims, hcls⟩ := (reductionUpdates_ok_mem hrun).mp hp
    cases hl : lookupStmt S.halide.statements p.1 with
    | none =>
      rw [isReductionUpdateId_missing hl] at hcls
      exact absurd hcls (by simp)
    | some st =>
      refine ⟨st, rfl, ?_⟩
      cases hs : isSupportedReduction st with
      | none =>
        have herr : isReductionUpdateId p.1 S = .error .undefinedAccess := by
          simp [isReductionUpdateId, hl, hs]
        rw [herr] at hcls
        exact absurd hcls (by simp)
      | some b =>
        cases b with
        | true => rfl
        | false =>
          have hok : isReductionUpdateId p.1 S = .ok (false, []) := by
            simp [isReductionUpdateId, hl, hs]
          rw [hok] at hcls
          exact absurd hcls (by simp)

/-- C3 witness: the multiplication-combiner statement's instance is excluded
from the result even though its statement node sits in the reduction catalog
with matching dims. -/
theorem reductionUpdates_nonAdd_witness :
    (((idM, [0]) : Point) ∉ ([] : UnionSet)) :=
  (reductionUpdates_nonAdd [(idM, [0])] scopMul [] (idM, [0]) 2 203 "T" "T"
    (.mul 200 xVar yVar) [] [] [] (by rfl) (by rfl) (by rfl)
    ⟨⟨stmtMul, [1]⟩, by simp [scopMul], by rfl⟩).1

/-- C4: catalog matching is by allocation identity of the statement node:
when the registered statement is a supported reduction, it is classified as a
reduction update only if some catalog entry's update node is `same_as` it
(same node identity), and with a catalog all of whose entries are
allocation-distinct from the statement — even when one of them is
structurally equal to it — the lookup does not match. -/
theorem isReductionUpdateId_identity (idq : IslId) (S : Scop) (stmt : Stmt)
    (hlk : lookupStmt S.halide.statements idq = some stmt)
    (hsup : isSupportedReduction stmt = some true) :
    (∀ dims, isReductionUpdateId idq S = .ok (true, dims) →
      ∃ r ∈ S.halide.reductions, Stmt.sameAs r.update stmt = true ∧ r.dims = dims)
    ∧ ((∃ r ∈ S.halide.reductions, Stmt.structEq r.update stmt = true) →
      (∀ r ∈ S.halide.reductions, Stmt.sameAs r.update stmt = false) →
      isReductionUpdateId idq S = .ok (false, [])) := by
  constructor
  · intro dims h
    cases hf : S.halide.reductions.find? (fun iup => iup.update.sameAs stmt) with
    | none =>
      have hok : isReductionUpdateId idq S = .ok (false, []) := by
        simp [isReductionUpdateId, hlk, hsup, hf]
      rw [hok] at h
      exact absurd h (by simp)
    | some iup =>
      have hok : isReductionUpdateId idq S = .ok (true, iup.dims) := by
        simp [isReductionUpdateId, hlk, hsup, hf]
      rw [hok] at h
      simp only [Except.ok.injEq, Prod.mk.injEq, true_and] at h
      have hpred := List.find?_some hf
      exact ⟨iup, List.mem_of_find?_eq_some hf, hpred, h⟩
  · rintro ⟨rstr, hrmem, hrstr⟩ hall
    have hf : S.halide.reductions.find? (fun iup => iup.update.sameAs stmt) = none := by
      apply List.find?_eq_none.mpr
      intro r hr
      simp [hall r hr]
    simp [isReductionUpdateId, hlk, hsup, hf]

/-- C4 witness: with the registry holding `stmtAdd` and the catalog holding
only the structurally equal but independently constructed `stmtAddCopy`, the
statement is not classified as a reduction update. -/
theorem isReductionUpdateId_identity_witness :
    isReductionUpdateId idA scopCopy = .ok (false, []) :=
  (isReductionUpdateId_identity idA scopCopy stmtAdd (by rfl) (by rfl)).2
    ⟨⟨stmtAddCopy, [1]⟩, by simp [scopCopy], by rfl⟩
    (by
      intro r hr
      simp only [scopCopy, List.mem_singleton] at hr
      subst hr
      rfl)

/-- C5 counterexample: a domain whose single statement identifier is present
in the registry, yet `reductionUpdates` does not return a result: the
registered statement is not a Provide node, so the unguarded cast dereference
is reached (a failure mode other than the missing-identifier abort),
refuting "when all identifiers are present no other failure mode exists". -/
theorem reductionUpdates_presentId_fails :
    (lookupStmt scopBad.halide.statements idB).isSome = true ∧
      reductionUpdates [(idB, [0])] scopBad = .error .undefinedAccess :=
  ⟨rfl, rfl⟩

/-- C5 (amended): assuming every registered statement reached from the domain
satisfies the Provide/call shape precondition, a missing identifier makes
`reductionUpdates` abort with a diagnostic naming a missing identifier, and
when additionally every identifier is present the operation is total. -/
theorem reductionUpdates_failure_semantics (D : UnionSet) (S : Scop)
    (hshape : ∀ q ∈ D, ∀ st, lookupStmt S.halide.statements q.1 = some st →
      (isSupportedReduction st).isSome) :
    ((∃ q ∈ D, lookupStmt S.halide.statements q.1 = none) →
      ∃ idm, reductionUpdates D S = .error (.missingId idm) ∧
        lookupStmt S.halide.statements idm = none)
    ∧ ((∀ q ∈ D, (lookupStmt S.halide.statements q.1).isSome) →
      ∃ u, reductionUpdates D S = .ok u) := by
  constructor
  · exact fun hex => reductionUpdates_missing hshape hex
  · intro hpres
    apply reductionUpdates_total
    intro q hq
    cases hl : lookupStmt S.halide.statements q.1 with
    | none =>
      have hp := hpres q hq
      rw [hl] at hp
      exact absurd hp (by simp)
    | some st => exact isReductionUpdateId_ok_of hl (hshape q hq st hl)

/-- C5 witness: on a well-shaped domain with all identifiers registered, the
operation returns a result. -/
theorem reductionUpdates_failure_semantics_witness :
    ∃ u, reductionUpdates [((idA, [0]) : Point)] scopA = .ok u :=
  (reductionUpdates_failure_semantics [(idA, [0])] scopA
    (by
      intro q hq st hst
      rw [List.mem_singleton] at hq
      subst hq
      rw [show lookupStmt scopA.halide.statements ((idA, [0]) : Point).1 = some stmtAdd
        from rfl] at hst
      injection hst with hst
      subst hst
      rfl)).2
    (by
      intro q hq
      rw [List.mem_singleton] at hq
      subst hq
      rfl)

/-- C6: on disjoint domains `reductionUpdates` distributes over union (list
append, read as set union), and the result set is independent of the
enumeration order of the input domain's components. -/
theorem reductionUpdates_union (D1 D2 : UnionSet) (S : Scop) (u1 u2 : UnionSet)
    (hdisj : ∀ q, q ∈ D1 → q ∉ D2)
    (h1 : reductionUpdates D1 S = .ok u1)
    (h2 : reductionUpdates D2 S = .ok u2) :
    reductionUpdates (D1 ++ D2) S = .ok (u1 ++ u2)
    ∧ ∀ (D1p u1p : UnionSet), D1.Perm D1p → reductionUpdates D1p S = .ok u1p →
      ∀ q, q ∈ u1p ↔ q ∈ u1 := by
  refine ⟨reductionUpdates_append h1 h2, ?_⟩
  intro D1p u1p hperm hp q
  rw [reductionUpdates_ok_mem hp, reductionUpdates_ok_mem h1]
  constructor
  · rintro ⟨hq, hc⟩
    exact ⟨hperm.mem_iff.mpr hq, hc⟩
  · rintro ⟨hq, hc⟩
    exact ⟨hperm.mem_iff.mp hq, hc⟩

/-- C6 witness: the union of the two disjoint singleton domains yields the
union of the two results. -/
theorem reductionUpdates_union_witness :
    reductionUpdates [((idA, [0]) : Point), (idM, [1])] scopA = .ok [(idA, [0])] :=
  (reductionUpdates_union [(idA, [0])] [(idM, [1])] scopA [(idA, [0])] []
    (by
      intro q hq hq2
      rw [List.mem_singleton] at hq hq2
      rw [hq] at hq2
      exact absurd hq2 (by decide))
    (by rfl) (by rfl)).1

/-- C7: for every nonnegative count the generator returns exactly `n`
identifiers, the `i`-th being the context-scoped identifier named by the
prefix followed by the decimal rendering of `i`; the names are pairwise
distinct within the call, `n = 0` yields the empty sequence, and the outcome
is a pure function of context, count and prefix (deterministic across runs). -/
theorem makeLoopIterators_spec (ctx : Nat) (n : Int) (pref : String) (hn : 0 ≤ n) :
    (makeLoopIterators ctx n pref).length = n.toNat
    ∧ (∀ i (hi : i < (makeLoopIterators ctx n pref).length),
        (makeLoopIterators ctx n pref).get ⟨i, hi⟩ = ⟨ctx, pref ++ Nat.repr i⟩)
    ∧ (makeLoopIterators ctx n pref).Nodup
    ∧ (n = 0 → makeLoopIterators ctx n pref = []) := by
  refine ⟨makeLoopIterators_length ctx n pref,
    fun i hi => makeLoopIterators_get ctx n pref i hi,
    makeLoopIterators_nodup ctx n pref, ?_⟩
  intro h0
  subst h0
  rfl

/-- C7 witness: three iterators with prefix "i" are exactly `i0, i1, i2`,
pairwise distinct, and the zero count yields the empty sequence. -/
theorem makeLoopIterators_spec_witness :
    makeLoopIterators 0 3 "i" = [⟨0, "i0"⟩, ⟨0, "i1"⟩, ⟨0, "i2"⟩] ∧
      (makeLoopIterators 0 3 "i").Nodup ∧ makeLoopIterators 0 0 "i" = [] := by
  have h := makeLoopIterators_spec 0 3 "i" (by decide)
  have h0 := makeLoopIterators_spec 0 0 "i" (by decide)
  exact ⟨by decide, h.2.2.1, h0.2.2.2 rfl⟩

/-- C8 counterexample: identifiers minted by distinct calls in the same
context do collide with other identifiers of that context: the first
identifier of `makeLoopIterators(ctx, 2, "i1")` and the eleventh identifier
of `makeLoopIterators(ctx, 11, "i")` are both the interned id named "i10",
and a repeated call with equal arguments reproduces the identical identifier
at position 0 rather than a fresh one. -/
theorem makeLoopIterators_collision :
    ((⟨0, "i10"⟩ : IslId) ∈ makeLoopIterators 0 2 "i1")
    ∧ ((⟨0, "i10"⟩ : IslId) ∈ makeLoopIterators 0 11 "i")
    ∧ (makeLoopIterators 0 2 "i").head? = (makeLoopIterators 0 2 "i").head? :=
  ⟨by decide, by decide, rfl⟩

/-- C8 (amended): identifier generation is deterministic rather than fresh:
calls with the same context, count and prefix return identical sequences, so
identifiers at equal positions coincide across such calls, while within one
call identifiers at distinct positions are distinct — two generated
identifiers are equal exactly when their positions are. -/
theorem makeLoopIterators_deterministic (ctx : Nat) (n : Int) (pref : String)
    (i j : Nat) (hi : i < (makeLoopIterators ctx n pref).length)
    (hj : j < (makeLoopIterators ctx n pref).length) :
    (makeLoopIterators ctx n pref).get ⟨i, hi⟩ = (makeLoopIterators ctx n pref).get ⟨j, hj⟩
      ↔ i = j := by
  rw [makeLoopIterators_get ctx n pref i hi, makeLoopIterators_get ctx n pref j hj]
  constructor
  · intro h
    exact append_repr_injective pref (congrArg IslId.name h)
  · intro h
    rw [h]

/-- C8 amended witness: within one call, the identifiers at positions 0 and 1
differ. -/
theorem makeLoopIterators_deterministic_witness :
    ¬ (makeLoopIterators 0 2 "i").get ⟨0, by decide⟩
      = (makeLoopIterators 0 2 "i").get ⟨1, by decide⟩ := by
  intro h
  have h01 := (makeLoopIterators_deterministic 0 2 "i" 0 1 (by decide) (by decide)).mp h
  exact absurd h01 (by decide)

/-- C9 counterexample: at the negative count -1 the generator returns the
empty sequence — a returned value, not a fatal failure: the loop guard
`i < n` never admits the body. -/
theorem makeLoopIterators_neg_counterexample :
    makeLoopIterators 0 (-1) "i" = [] := rfl

/-- C9 (amended): for every negative count the generator returns the empty
sequence; no fatal check exists on this code path. -/
theorem makeLoopIterators_neg (ctx : Nat) (n : Int) (pref : String) (hn : n < 0) :
    makeLoopIterators ctx n pref = [] := by
  have h0 : n.toNat = 0 := Int.toNat_of_nonpos (le_of_lt hn)
  simp [makeLoopIterators, h0]

/-- C9 amended witness: the count -2 also yields the empty sequence. -/
theorem makeLoopIterators_neg_witness : makeLoopIterators 0 (-2) "j" = [] :=
  makeLoopIterators_neg 0 (-2) "j" (by decide)

/-- C10: the supported-reduction test is defined (free of the unguarded
dereferences that are undefined behaviour in the C++) exactly on statements
that are Provide nodes with at least one value and whose first value, when it
is a call expression, has at least one argument; on every other statement the
computation is not defined. -/
theorem isSupportedReduction_defined_iff (stmt : Stmt) :
    (isSupportedReduction stmt).isSome = true ↔
      ∃ nid fn v vs args, stmt = Stmt.provide nid fn (v :: vs) args ∧
        ∀ cid cnm cargs, v = Expr.call cid cnm cargs → cargs ≠ [] := by
  cases stmt with
  | evaluate nid =>
    constructor
    · intro h
      exact absurd h (by simp [isSupportedReduction])
    · rintro ⟨nid2, fn2, v2, vs2, args2, heq, _⟩
      exact Stmt.noConfusion heq
  | provide nid fn values args =>
    cases values with
    | nil =>
      constructor
      · intro h
        exact absurd h (by simp [isSupportedReduction])
      · rintro ⟨nid2, fn2, v2, vs2, args2, heq, _⟩
        injection heq with h1 h2 h3 h4
        exact List.noConfusion h3
    | cons v vs =>
      cases v with
      | call cid cnm cargs =>
        cases cargs with
        | nil =>
          constructor
          · intro h
            exact absurd h (by simp [isSupportedReduction])
          · rintro ⟨nid2, fn2, v2, vs2, args2, heq, hcond⟩
            injection heq with h1 h2 h3 h4
            injection h3 with hv hvs
            exact absurd rfl (hcond cid cnm [] hv.symm)
        | cons a cargs2 =>
          constructor
          · intro _
            refine ⟨nid, fn, Expr.call cid cnm (a :: cargs2), vs, args, rfl, ?_⟩
            intro cid2 cnm2 cargs3 heq2
            injection heq2 with h1 h2 h3
            rw [← h3]
            exact List.cons_ne_nil a cargs2
          · intro _
            rfl
      | add i a b =>
        constructor
        · intro _
          refine ⟨nid, fn, Expr.add i a b, vs, args, rfl, ?_⟩
          intro cid2 cnm2 cargs3 heq2
          exact Expr.noConfusion heq2
        · intro _
          rfl
      | mul i a b =>
        constructor
        · intro _
          refine ⟨nid, fn, Expr.mul i a b, vs, args, rfl, ?_⟩
          intro cid2 cnm2 cargs3 heq2
          exact Expr.noConfusion heq2
        · intro _
          rfl
      | minE i a b =>
        constructor
        · intro _
          refine ⟨nid, fn, Expr.minE i a b, vs, args, rfl, ?_⟩
          intro cid2 cnm2 cargs3 heq2
          exact Expr.noConfusion heq2
        · intro _
          rfl
      | maxE i a b =>
        constructor
        · intro _
          refine ⟨nid, fn, Expr.maxE i a b, vs, args, rfl, ?_⟩
          intro cid2 cnm2 cargs3 heq2
          exact Expr.noConfusion heq2
        · intro _
          rfl
      | varE i vn =>
        constructor
        · intro _
          refine ⟨nid, fn, Expr.varE i vn, vs, args, rfl, ?_⟩
          intro cid2 cnm2 cargs3 heq2
          exact Expr.noConfusion heq2
        · intro _
          rfl

/-- C10 witness: the sample addition statement satisfies the shape
precondition, so the test is defined on it. -/
theorem isSupportedReduction_defined_iff_witness :
    (isSupportedReduction stmtAdd).isSome = true :=
  (isSupportedReduction_defined_iff stmtAdd).mpr
    ⟨1, "S", Expr.call 103 "S" [Expr.add 100 xVar yVar], [], [], rfl, by
      intro cid cnm cargs heq
      injection heq with h1 h2 h3
      rw [← h3]
      simp⟩

end TC
